import Mathlib

/-!
Verification development for the Kachina repository engine
(`src/main/repo-service.ts`, `src/main/operation-queue.ts`,
`src/main/command-runner.ts`, `src/shared/types.ts`).

The TypeScript source is shallowly embedded: pure functions become Lean
functions over `List Char` / `String`; the stateful parts (the command
runner's event handlers, the operation queue, the orchestrator methods)
become explicit state machines or state-passing computations.  External
effects (process spawning, the filesystem) are modelled as oracles whose
results are consumed in call order.
-/

namespace Kachina

/-! ## Shared data model (src/shared/types.ts) -/
/-- CommandTranscript from `src/shared/types.ts`: the complete captured
record of one external process invocation.  `exitCode = none` models the
TypeScript `null` (process never produced an exit code). -/
structure Transcript where
  command : String
  exitCode : Option Int
  stdout : String
  stderr : String
  startedAt : String
  finishedAt : String
  timedOut : Bool
deriving DecidableEq, Repr

/-- RepoEnvironment from `src/shared/types.ts`: tagged union of the native
Windows environment and a WSL distro. -/
inductive RepoEnvironment where
  | windows
  | wsl (distro : String)
deriving DecidableEq, Repr

/-- ChangedFile from `src/shared/types.ts`.  The one-character status
strings of the source are modelled as `Char`. -/
structure ChangedFile where
  path : String
  indexStatus : Char
  worktreeStatus : Char
  isUntracked : Bool
  isStaged : Bool
  isUnstaged : Bool
  isConflicted : Bool
deriving DecidableEq, Repr

/-- The value computed by `parseStatusOutput` in `repo-service.ts`: a
RepoStatusSummary minus the fields (`refreshedAt`, `mergeInProgress`,
`rebaseInProgress`, `inaccessible`) that the orchestrator fills in later
(the `Omit<...>` in the source). -/
structure ParsedStatus where
  needsAttention : Bool
  isDirty : Bool
  hasStaged : Bool
  hasUntracked : Bool
  stagedCount : Nat
  modifiedCount : Nat
  untrackedCount : Nat
  conflictedCount : Nat
  changedFiles : List ChangedFile
  branch : String
  isDetached : Bool
  hasUpstream : Bool
  ahead : Nat
  behind : Nat
deriving DecidableEq, Repr

/-- RepoStatusSummary from `src/shared/types.ts`. -/
structure RepoStatusSummary where
  needsAttention : Bool
  isDirty : Bool
  hasStaged : Bool
  hasUntracked : Bool
  stagedCount : Nat
  modifiedCount : Nat
  untrackedCount : Nat
  conflictedCount : Nat
  changedFiles : List ChangedFile
  branch : String
  isDetached : Bool
  hasUpstream : Bool
  ahead : Nat
  behind : Nat
  mergeInProgress : Bool
  rebaseInProgress : Bool
  inaccessible : Bool
  refreshedAt : String
deriving DecidableEq, Repr

/-- ActiveOperation from `src/shared/types.ts`. -/
structure ActiveOperation where
  id : String
  name : String
  startedAt : String
deriving DecidableEq, Repr

/-- RepoRecord from `src/shared/types.ts`. -/
structure RepoRecord where
  id : String
  displayName : String
  path : String
  environment : RepoEnvironment
  createdAt : String
  updatedAt : String
  status : Option RepoStatusSummary
  activeOperation : Option ActiveOperation
  lastError : Option String
  lastErrorTranscript : Option Transcript
  transcripts : List Transcript
deriving DecidableEq, Repr

/-- WslScanRoot from `src/shared/types.ts`. -/
structure WslScanRoot where
  id : String
  distro : String
  path : String
deriving DecidableEq, Repr

/-- DashboardSettings from `src/shared/types.ts`. -/
structure DashboardSettings where
  windowsRoots : List String
  wslRoots : List WslScanRoot
  ignorePatterns : List String
  ignoredRepos : List String
  editorCommandWindows : String
  editorCommandWsl : String
  refreshIntervalSeconds : Nat
  fetchOnRefresh : Bool
deriving DecidableEq, Repr

/-! ## JavaScript string primitives

The parser in `repo-service.ts` manipulates JavaScript strings by index,
prefix and regular expression.  These helpers reproduce the exact
JavaScript operations over `List Char`. -/
/-- Splitting on the regular expression `/\r?\n/`: split at every `'\n'`,
additionally dropping a `'\r'` that immediately precedes it (a `'\r'` not
followed by `'\n'` is kept, as in JavaScript). -/
def splitLinesAux : List Char → List Char → List (List Char)
  | [], acc => [acc.reverse]
  | '\n' :: rest, acc =>
      (match acc with
       | '\r' :: acc2 => acc2.reverse
       | _ => acc.reverse) :: splitLinesAux rest []
  | c :: rest, acc => splitLinesAux rest (c :: acc)

/-- JavaScript `String.prototype.trim` (whitespace stripped at both
ends). -/
def jsTrimList (s : List Char) : List Char :=
  ((s.dropWhile Char.isWhitespace).reverse.dropWhile Char.isWhitespace).reverse

/-- JavaScript `String.prototype.split` with the separator `"..."` (the
only separator the source splits on): cut at every non-overlapping
leftmost occurrence of three consecutive dots. -/
def splitOnDots : List Char → List Char → List (List Char)
  | [], acc => [acc.reverse]
  | '.' :: '.' :: '.' :: rest, acc => acc.reverse :: splitOnDots rest []
  | c :: rest, acc => splitOnDots rest (c :: acc)

/-- JavaScript `String.prototype.replace` with a string pattern: replace
only the first occurrence; a string with no occurrence is returned
unchanged. -/
def replaceFirstList (pat rep : List Char) : List Char → List Char
  | [] => []
  | c :: rest =>
      if pat.isPrefixOf (c :: rest) then rep ++ (c :: rest).drop pat.length
      else c :: replaceFirstList pat rep rest

/-- Digit run to number, as `Number.parseInt(s, 10)` computes it on an
all-digit capture. -/
def digitsToNat (ds : List Char) : Nat :=
  ds.foldl (fun acc c => acc * 10 + (c.toNat - '0'.toNat)) 0

/-- Scanner for the regular expressions `/ahead (\d+)/` and
`/behind (\d+)/`: find the first position where `tag` occurs immediately
followed by at least one digit, and return the maximal digit run there. -/
def matchNumAfterTag (tag : List Char) : List Char → Option Nat
  | [] => none
  | c :: rest =>
      if tag.isPrefixOf (c :: rest) then
        let ds := ((c :: rest).drop tag.length).takeWhile Char.isDigit
        if ds.isEmpty then matchNumAfterTag tag rest
        else some (digitsToNat ds)
      else matchNumAfterTag tag rest

/-- Content scan for `/\[(.+?)\]/`: characters up to the first `']'`;
`'.'` does not match a newline, so a newline aborts the match. -/
def takeUntilRBracket : List Char → Option (List Char)
  | [] => none
  | ']' :: _ => some []
  | '\n' :: _ => none
  | c :: rest => (takeUntilRBracket rest).map (fun g => c :: g)

/-- After an opening `'['`: the lazy group `(.+?)` consumes one character
unconditionally (which may itself be `']'`), then everything up to the
next `']'`. -/
def bracketContent : List Char → Option (List Char)
  | [] => none
  | c :: rest =>
      if c = '\n' then none
      else (takeUntilRBracket rest).map (fun g => c :: g)

/-- JavaScript `remoteInfo.match(/\[(.+?)\]/)`: scan left to right for an
`'['` at which the group can close; on failure resume scanning at the
next position. -/
def firstBracketGroup : List Char → Option (List Char)
  | [] => none
  | '[' :: rest =>
      (match bracketContent rest with
       | some g => some g
       | none => firstBracketGroup rest)
  | _ :: rest => firstBracketGroup rest

/-- First occurrence of the rename arrow `" -> "` (JavaScript
`raw.indexOf(" -> ")`); returns the text after it. -/
def afterArrow : List Char → Option (List Char)
  | [] => none
  | c :: rest =>
      if [' ', '-', '>', ' '].isPrefixOf (c :: rest) then some ((c :: rest).drop 4)
      else afterArrow rest

/-! ## Status parser (repo-service.ts, parseStatusOutput) -/
/-- parseChangedPath from `repo-service.ts`: keep only the post-arrow
path of a rename entry. -/
def parseChangedPath (raw : List Char) : List Char :=
  match afterArrow raw with
  | none => raw
  | some tail => tail

/-- The single pass over per-file lines in `parseStatusOutput`: the
source maps each line to a ChangedFile (or `null`, filtered out) while
incrementing the staged/modified/untracked/conflicted counters as a side
effect.  The accumulator carries the four counters and the file list. -/
def foldChangedLines :
    List (List Char) → Nat → Nat → Nat → Nat → List ChangedFile →
    Nat × Nat × Nat × Nat × List ChangedFile
  | [], st, mo, un, co, files => (st, mo, un, co, files)
  | line :: rest, st, mo, un, co, files =>
      if ['?', '?', ' '].isPrefixOf line then
        let file : ChangedFile :=
          { path := ⟨parseChangedPath (line.drop 3)⟩
            indexStatus := '?'
            worktreeStatus := '?'
            isUntracked := true
            isStaged := false
            isUnstaged := true
            isConflicted := false }
        foldChangedLines rest st mo (un + 1) co (files ++ [file])
      else if line.length < 4 then
        foldChangedLines rest st mo un co files
      else
        let indexStatus := line.getD 0 ' '
        let worktreeStatus := line.getD 1 ' '
        let isStaged := indexStatus != ' ' && indexStatus != '?'
        let isUnstaged := worktreeStatus != ' '
        let isConflicted :=
          indexStatus == 'U' || worktreeStatus == 'U' ||
          (indexStatus == 'A' && worktreeStatus == 'A') ||
          (indexStatus == 'D' && worktreeStatus == 'D')
        let file : ChangedFile :=
          { path := ⟨parseChangedPath (line.drop 3)⟩
            indexStatus := indexStatus
            worktreeStatus := worktreeStatus
            isUntracked := false
            isStaged := isStaged
            isUnstaged := isUnstaged
            isConflicted := isConflicted }
        foldChangedLines rest
          (st + (if isStaged then 1 else 0))
          (mo + (if isUnstaged then 1 else 0))
          un
          (co + (if isConflicted then 1 else 0))
          (files ++ [file])

/-- Header analysis of `parseStatusOutput`: branch name, detached flag,
upstream flag and ahead/behind counts from the trimmed `## `-line
remainder. -/
def parseHeaderSummary (summary : List Char) :
    String × Bool × Bool × Nat × Nat :=
  if "HEAD (".toList.isPrefixOf summary then
    ("detached", true, false, 0, 0)
  else if "No commits yet on ".toList.isPrefixOf summary then
    (⟨replaceFirstList "No commits yet on ".toList [] summary⟩, false, false, 0, 0)
  else
    let parts := splitOnDots summary []
    let localBranch := parts.headD []
    let branchName : String :=
      ⟨jsTrimList (if localBranch = [] then "unknown".toList else localBranch)⟩
    match parts.get? 1 with
    | none => (branchName, false, false, 0, 0)
    | some remoteInfo =>
        match firstBracketGroup remoteInfo with
        | none => (branchName, false, true, 0, 0)
        | some details =>
            (branchName, false, true,
             (matchNumAfterTag "ahead ".toList details).getD 0,
             (matchNumAfterTag "behind ".toList details).getD 0)

/-- parseStatusOutput from `repo-service.ts`: convert raw porcelain v1
`--branch` output into the partial status summary. -/
def parseStatusOutput (stdout : String) : ParsedStatus :=
  let lines := (splitLinesAux stdout.toList []).filter (fun l => l ≠ [])
  let header :=
    (lines.find? (fun l => ['#', '#', ' '].isPrefixOf l)).getD "## HEAD (no branch)".toList
  let changedLines := lines.filter (fun l => ¬ ['#', '#', ' '].isPrefixOf l)
  let summary := jsTrimList (header.drop 3)
  let (branch, isDetached, hasUpstream, ahead, behind) := parseHeaderSummary summary
  let (stagedCount, modifiedCount, untrackedCount, conflictedCount, changedFiles) :=
    foldChangedLines changedLines 0 0 0 0 []
  let hasStaged := decide (stagedCount > 0)
  let hasUntracked := decide (untrackedCount > 0)
  let isDirty := decide (stagedCount > 0) || decide (modifiedCount > 0) ||
    decide (untrackedCount > 0)
  let needsAttention := isDirty || decide (ahead > 0) || decide (behind > 0) ||
    decide (conflictedCount > 0)
  { needsAttention := needsAttention
    isDirty := isDirty
    hasStaged := hasStaged
    hasUntracked := hasUntracked
    stagedCount := stagedCount
    modifiedCount := modifiedCount
    untrackedCount := untrackedCount
    conflictedCount := conflictedCount
    changedFiles := changedFiles
    branch := branch
    isDetached := isDetached
    hasUpstream := hasUpstream
    ahead := ahead
    behind := behind }

/-! ## Command execution primitive (src/main/command-runner.ts, runCommand)

`runCommand` installs event handlers on a spawned child process and on a
timeout timer.  The embedding is an event machine: each JavaScript
callback (`data`, the abort listener, the timer, `close`, `error`)
becomes one event, and the machine state carries the handler-local
variables (`stdout`, `stderr`, `timedOut`, `finished`) together with the
observable effects (signals sent, forced kill scheduled, settlement of
the returned promise). -/
/-- Timestamp placeholder for `new Date().toISOString()`. -/
def nowIso : String := "1970-01-01T00:00:00.000Z"

/-- formatInvocation from `command-runner.ts`:
`[command, ...args].join(" ")`. -/
def formatInvocation (command : String) (args : List String) : String :=
  String.intercalate " " (command :: args)

instance {ε α : Type} [DecidableEq ε] [DecidableEq α] : DecidableEq (Except ε α) :=
  fun x y =>
    match x, y with
    | .ok a, .ok b =>
        if h : a = b then isTrue (congrArg Except.ok h)
        else isFalse (fun hh => h (Except.ok.inj hh))
    | .error a, .error b =>
        if h : a = b then isTrue (congrArg Except.error h)
        else isFalse (fun hh => h (Except.error.inj hh))
    | .ok _, .error _ => isFalse (fun hh => Except.noConfusion hh)
    | .error _, .ok _ => isFalse (fun hh => Except.noConfusion hh)

/-- The fixed inputs of one `runCommand` call. -/
structure RunParams where
  command : String
  args : List String
  startedAt : String
deriving DecidableEq, Repr

/-- One callback firing inside `runCommand`: a stdout/stderr chunk, the
external cancellation listener (`onAbort`), the timeout timer, the
process `close` event, or the spawn-level `error` event. -/
inductive RunEvent where
  | dataOut (chunk : String)
  | dataErr (chunk : String)
  | abortFire
  | timerFire
  | close (exitCode : Option Int)
  | spawnError (message : String)
deriving DecidableEq, Repr

/-- Handler-local state of one `runCommand` call plus its observable
effects.  `sigterms` counts `child.kill("SIGTERM")` calls;
`sigkillScheduled` records whether a delayed `child.kill("SIGKILL")` was
scheduled; `outcome` is the settlement of the returned promise
(`Except.error` is a `CommandFailedError` carrying its transcript). -/
structure RunState where
  stdoutAcc : String
  stderrAcc : String
  timedOut : Bool
  finished : Bool
  sigterms : Nat
  sigkillScheduled : Bool
  outcome : Option (Except Transcript Transcript)
deriving DecidableEq, Repr

/-- The transcript built in the `close` handler. -/
def closeTranscript (p : RunParams) (s : RunState) (exitCode : Option Int) : Transcript :=
  { command := formatInvocation p.command p.args
    exitCode := exitCode
    stdout := s.stdoutAcc
    stderr := s.stderrAcc
    startedAt := p.startedAt
    finishedAt := nowIso
    timedOut := s.timedOut }

/-- JavaScript `String.prototype.trim`. -/
def jsTrim (s : String) : String := ⟨jsTrimList s.toList⟩

/-- The transcript built in the `error` handler: no exit code, the error
message appended to stderr, the whole trimmed. -/
def errorTranscript (p : RunParams) (s : RunState) (message : String) : Transcript :=
  { command := formatInvocation p.command p.args
    exitCode := none
    stdout := s.stdoutAcc
    stderr := jsTrim (s.stderrAcc ++ "\n" ++ message)
    startedAt := p.startedAt
    finishedAt := nowIso
    timedOut := s.timedOut }

/-- One callback of `runCommand`.  Guards mirror the source: the abort
listener returns early once `finished` is set, the timer is cleared on
finish, and `close`/`error` are ignored after `finished`.  The abort
listener ONLY sends SIGTERM; the timer additionally sets `timedOut` and
schedules the delayed SIGKILL.  The `close` handler resolves exactly
when `exitCode === 0 && !timedOut` and otherwise rejects with a
`CommandFailedError` carrying the transcript. -/
def stepRun (p : RunParams) (s : RunState) : RunEvent → RunState
  | .dataOut chunk => { s with stdoutAcc := s.stdoutAcc ++ chunk }
  | .dataErr chunk => { s with stderrAcc := s.stderrAcc ++ chunk }
  | .abortFire =>
      if s.finished then s
      else { s with sigterms := s.sigterms + 1 }
  | .timerFire =>
      if s.finished then s
      else { s with timedOut := true, sigterms := s.sigterms + 1, sigkillScheduled := true }
  | .close exitCode =>
      if s.finished then s
      else
        let tr := closeTranscript p s exitCode
        { s with finished := true
                 outcome := some (if exitCode = some 0 ∧ s.timedOut = false then .ok tr else .error tr) }
  | .spawnError message =>
      if s.finished then s
      else { s with finished := true, outcome := some (.error (errorTranscript p s message)) }

/-- State at entry of `runCommand`'s promise executor. -/
def initRunState : RunState :=
  { stdoutAcc := ""
    stderrAcc := ""
    timedOut := false
    finished := false
    sigterms := 0
    sigkillScheduled := false
    outcome := none }

/-- Run the event machine over a sequence of callback firings. -/
def runTrace (p : RunParams) (evs : List RunEvent) : RunState :=
  evs.foldl (stepRun p) initRunState

/-! ## Operation queue (src/main/operation-queue.ts, OperationQueue)

The queue keeps one array `tasks` of pending tasks and ONE `active` slot
(`private active: { task, controller } | undefined`) shared by all
repositories.  `pump()` starts the head of `tasks` only when `active` is
empty; when a running task's body settles, the `finally` clause clears
`active` and pumps again.  The per-task timer and `cancelRepo` only call
`controller.abort()` on the active task's AbortController — they do not
settle the task.

The embedding is a trace semantics.  A task body is abstracted by how it
can settle: `natural` is its settlement when it completes on its own;
`onAbort = some o` means the body observes the cancellation token and
settles with `o` once aborted; `onAbort = none` means the body ignores
the token (the abort alone never settles it).  Events model the
scheduler: an `enqueue` call, the queue-level timer firing for the
active task, the aborted body reacting to the token, the body completing
naturally, and a `cancelRepo` call. -/
/-- Settlement of an enqueue promise: the task's own result, the task's
own error, or the cancellation error
(`new Error("Operation cancelled before execution")`). -/
inductive Outcome where
  | resolved
  | rejectedBody
  | rejectedCancel
deriving DecidableEq, Repr

/-- An enqueued task, with its body abstracted by its settlement
behaviour (see section comment). -/
structure QTask where
  id : Nat
  repoId : String
  onAbort : Option Outcome
  natural : Outcome
deriving DecidableEq, Repr

/-- Queue state: pending `tasks`, the single `active` slot (task plus
its AbortController's aborted flag), and observation logs — the order
tasks started (`onStart` callbacks), the order they finished
(`onFinish` callbacks), and the settlements of enqueue promises. -/
structure QueueState where
  tasks : List QTask
  active : Option (QTask × Bool)
  started : List Nat
  finished : List Nat
  settled : List (Nat × Outcome)
deriving DecidableEq, Repr

/-- pump from `operation-queue.ts`: return unless the active slot is
empty and a task is pending; otherwise shift the head task, set it
active with a fresh (un-aborted) controller, and fire `onStart`. -/
def pump (s : QueueState) : QueueState :=
  match s.active, s.tasks with
  | some _, _ => s
  | none, [] => s
  | none, t :: rest =>
      { s with tasks := rest, active := some (t, false), started := s.started ++ [t.id] }

/-- The `finally` path of `pump`: the active task's body has settled
with `o`; fire `onFinish`, clear the active slot, settle the enqueue
promise, and pump the next pending task. -/
def settleActive (s : QueueState) (o : Outcome) : QueueState :=
  match s.active with
  | none => s
  | some (t, _) =>
      pump { s with active := none
                    finished := s.finished ++ [t.id]
                    settled := s.settled ++ [(t.id, o)] }

/-- Scheduler events over the queue. -/
inductive QEvent where
  | enq (t : QTask)
  | timerFire
  | abortSettle
  | complete
  | cancel (repoId : String)
deriving DecidableEq, Repr

/-- One scheduler step.  `enq` is `enqueue` (push then pump).
`timerFire` is the queue-level timeout elapsing for the active task: it
only aborts the controller.  `abortSettle` is the aborted body reacting
to the token — possible only if the controller is aborted and the body
observes it.  `complete` is the body settling on its own.  `cancel` is
`cancelRepo`: abort the active controller when the repository matches,
remove every pending task of that repository and settle each with the
cancellation error (no pump). -/
def stepQ (s : QueueState) : QEvent → QueueState
  | .enq t => pump { s with tasks := s.tasks ++ [t] }
  | .timerFire =>
      match s.active with
      | some (t, _) => { s with active := some (t, true) }
      | none => s
  | .abortSettle =>
      match s.active with
      | some (t, true) =>
          match t.onAbort with
          | some o => settleActive s o
          | none => s
      | _ => s
  | .complete =>
      match s.active with
      | some (t, _) => settleActive s t.natural
      | none => s
  | .cancel rid =>
      let s1 : QueueState :=
        match s.active with
        | some (t, ab) =>
            if t.repoId = rid then { s with active := some (t, true) }
            else { s with active := some (t, ab) }
        | none => s
      { s1 with
        tasks := s1.tasks.filter (fun t => t.repoId ≠ rid)
        settled := s1.settled ++
          (s1.tasks.filter (fun t => t.repoId = rid)).map
            (fun t => (t.id, Outcome.rejectedCancel)) }

/-- The queue as constructed: no pending task, empty active slot. -/
def initQ : QueueState :=
  { tasks := [], active := none, started := [], finished := [], settled := [] }

/-- Run the queue over a scheduler trace. -/
def runQ (evs : List QEvent) : QueueState :=
  evs.foldl stepQ initQ

/-- The ids of enqueued tasks of a trace, in submission order. -/
def enqIds : List QEvent → List Nat
  | [] => []
  | .enq t :: rest => t.id :: enqIds rest
  | _ :: rest => enqIds rest

/-- Global-serialization invariant: when a task is active, it is the one
task that has started but not finished; when the queue is idle, every
started task has finished and nothing is pending. -/
def Excl (s : QueueState) : Prop :=
  match s.active with
  | some a => s.started = s.finished ++ [a.1.id]
  | none => s.started = s.finished ∧ s.tasks = []

/-- The started log followed by the pending ids: the queue's global
bookkeeping of submitted-but-unconsumed order. -/
def startedThenPending (s : QueueState) : List Nat :=
  s.started ++ s.tasks.map QTask.id

/-- Per-event contribution to the submission order. -/
def enqContrib : QEvent → List Nat
  | .enq t => [t.id]
  | _ => []

/-- Whether two distinct tasks are simultaneously in flight
(started but not finished). -/
def twoInFlight (s : QueueState) : Bool :=
  decide (2 ≤ (s.started.filter (fun i => ¬ s.finished.contains i)).length)

/-- Exhaustive bounded exploration: from state `s`, along every event
sequence of length at most `n` drawn from `alphabet`, no reached state
(including `s`) ever has two tasks in flight. -/
def noOverlapUpTo (alphabet : List QEvent) : Nat → QueueState → Bool
  | 0, s => ! twoInFlight s
  | n + 1, s =>
      (! twoInFlight s) && alphabet.all (fun e => noOverlapUpTo alphabet n (stepQ s e))

/-! ## Repository engine orchestration (src/main/repo-service.ts)

The orchestrator methods run sequences of git commands, mutate the
repository record in place, and catch `CommandFailedError`s at the
operation boundary.  The embedding is a state-passing computation: the
state carries the external world as two oracles consumed in call order —
the results of `runGitCommand` invocations and the boolean results of
the `gitPathExists` probes (which the source computes from
`rev-parse --git-path` plus a filesystem or WSL existence check) — plus
the log of git argument lists invoked, and the mutable repository
record.  A computation can throw (`Except Err`, state preserved, as
thrown JavaScript errors leave prior in-place mutations applied), and
`none` models an exhausted oracle (the scenario ran longer than the
supplied world). -/
/-- An error thrown inside an orchestrator task body: a
`CommandFailedError` carrying its transcript, or a plain `Error` with a
message. -/
inductive Err where
  | cmdFailed (t : Transcript)
  | localError (message : String)
deriving DecidableEq, Repr

/-- State threaded through orchestrator computations (see section
comment). -/
structure Ctx where
  world : List (Except Transcript Transcript)
  probes : List Bool
  invocations : List (List String)
  repo : RepoRecord
deriving DecidableEq, Repr

def M (α : Type) : Type := Ctx → Option (Except Err α × Ctx)

def mPure {α : Type} (a : α) : M α := fun c => some (.ok a, c)

def mBind {α β : Type} (m : M α) (k : α → M β) : M β := fun c =>
  match m c with
  | none => none
  | some (.error e, c2) => some (.error e, c2)
  | some (.ok a, c2) => k a c2

instance : Monad M where
  pure := mPure
  bind := mBind

/-- `throw error` in a task body. -/
def throwM {α : Type} (e : Err) : M α := fun c => some (.error e, c)

/-- A `try { .. } catch (error) { .. }` block. -/
def catchM {α : Type} (m : M α) (h : Err → M α) : M α := fun c =>
  match m c with
  | some (.error e, c2) => h e c2
  | other => other

/-- `runGitCommand(repo.environment, repo.path, args, ..)`: consume the
next oracle result and record the invoked argument list; a failed
command throws `CommandFailedError` with its transcript. -/
def runGitCommandM (args : List String) : M Transcript := fun c =>
  match c.world with
  | [] => none
  | r :: rest =>
      let c2 := { c with world := rest, invocations := c.invocations ++ [args] }
      match r with
      | .ok t => some (.ok t, c2)
      | .error t => some (.error (.cmdFailed t), c2)

/-- `gitPathExists(repo, name, type, signal)`: environment probe,
abstracted as the next oracle boolean (the source's implementation
swallows every error into `false`, so the probe itself never throws). -/
def probeM : M Bool := fun c =>
  match c.probes with
  | [] => none
  | b :: rest => some (.ok b, { c with probes := rest })

/-- In-place mutation of the repository record (`repo.field = ..`). -/
def modifyRepoM (f : RepoRecord → RepoRecord) : M Unit :=
  fun c => some (.ok (), { c with repo := f c.repo })

/-- HISTORY_LIMIT from `repo-service.ts`. -/
def HISTORY_LIMIT : Nat := 40

/-- pushTranscript from `repo-service.ts`: append, then keep only the
last `HISTORY_LIMIT` entries (`transcripts.slice(-HISTORY_LIMIT)`). -/
def pushTranscriptFn (repo : RepoRecord) (t : Transcript) : RepoRecord :=
  let ts := repo.transcripts ++ [t]
  { repo with
    transcripts := if HISTORY_LIMIT < ts.length then ts.drop (ts.length - HISTORY_LIMIT) else ts }

def pushTranscriptM (t : Transcript) : M Unit :=
  modifyRepoM (fun r => pushTranscriptFn r t)

/-- The status invocation of `repo-service.ts`
(`["status", "--porcelain=v1", "--branch", "-uall"]`). -/
def statusArgs : List String := ["status", "--porcelain=v1", "--branch", "-uall"]

/-- The optional diagnostic fetch at the top of `refreshRepoDirect`:
run only when `fetchOnRefresh` is enabled; a `CommandFailedError` is
recorded (transcript pushed, returned as the fetch error) and any other
error is swallowed, exactly as the source's catch block does. -/
def fetchPhaseM (settings : DashboardSettings) : M (Option Transcript) :=
  if settings.fetchOnRefresh then
    catchM
      (runGitCommandM ["fetch", "--all", "--prune", "--quiet"] >>= fun t =>
        pushTranscriptM t >>= fun _ => mPure (none : Option Transcript))
      (fun e =>
        match e with
        | .cmdFailed t => pushTranscriptM t >>= fun _ => mPure (some t)
        | .localError _ => mPure none)
  else mPure none

/-- The rebase-in-progress probe of `refreshRepoDirect`: `rebase-merge`
exists OR `rebase-apply` exists, short-circuited as in the source. -/
def rebaseProbeM (rebase1 : Bool) : M Bool :=
  if rebase1 then mPure true else probeM

/-- The status-summary write of `refreshRepoDirect`'s success path:
recompute the whole summary from the parse and the probes; a failed
fetch also sets needsAttention, a stale-status lastError and the fetch
transcript as lastErrorTranscript. -/
def writeStatusM (fetchError : Option Transcript) (parsed : ParsedStatus)
    (mergeInProgress rebaseInProgress : Bool) : M Unit :=
  modifyRepoM (fun repo =>
    { repo with
      status := some
        { needsAttention :=
            parsed.needsAttention || mergeInProgress || rebaseInProgress ||
              fetchError.isSome
          isDirty := parsed.isDirty
          hasStaged := parsed.hasStaged
          hasUntracked := parsed.hasUntracked
          stagedCount := parsed.stagedCount
          modifiedCount := parsed.modifiedCount
          untrackedCount := parsed.untrackedCount
          conflictedCount := parsed.conflictedCount
          changedFiles := parsed.changedFiles
          branch := parsed.branch
          isDetached := parsed.isDetached
          hasUpstream := parsed.hasUpstream
          ahead := parsed.ahead
          behind := parsed.behind
          mergeInProgress := mergeInProgress
          rebaseInProgress := rebaseInProgress
          inaccessible := false
          refreshedAt := nowIso }
      lastError :=
        if fetchError.isSome then
          some "Fetch failed (see transcript). Status may be stale against upstream."
        else none
      lastErrorTranscript := fetchError
      updatedAt := nowIso })

/-- The status phase of `refreshRepoDirect`: status command, parse,
merge/rebase probes, summary write.  If the status command fails with a
`CommandFailedError`, push the failure transcript and write the degraded
summary (inaccessible, needs attention, branch "unknown", zero counts),
returning normally; any other error propagates. -/
def statusPhaseM (fetchError : Option Transcript) : M Unit :=
  catchM
    (runGitCommandM statusArgs >>= fun statusT =>
      pushTranscriptM statusT >>= fun _ =>
      probeM >>= fun mergeInProgress =>
      probeM >>= fun rebase1 =>
      rebaseProbeM rebase1 >>= fun rebaseInProgress =>
      writeStatusM fetchError (parseStatusOutput statusT.stdout) mergeInProgress
        rebaseInProgress)
    (fun e =>
      match e with
      | .cmdFailed t =>
          pushTranscriptM t >>= fun _ =>
          modifyRepoM (fun repo =>
            { repo with
              status := some
                { needsAttention := true
                  isDirty := false
                  hasStaged := false
                  hasUntracked := false
                  stagedCount := 0
                  modifiedCount := 0
                  untrackedCount := 0
                  conflictedCount := 0
                  changedFiles := []
                  branch := "unknown"
                  isDetached := false
                  hasUpstream := false
                  ahead := 0
                  behind := 0
                  mergeInProgress := false
                  rebaseInProgress := false
                  inaccessible := true
                  refreshedAt := nowIso }
              lastError := some "Repository inaccessible or git command failed."
              lastErrorTranscript := some t
              updatedAt := nowIso })
      | .localError m => throwM (.localError m))

/-- refreshRepoDirect from `repo-service.ts`: optional diagnostic fetch
(non-fatal), then the status phase. -/
def refreshRepoDirectM (settings : DashboardSettings) : M Unit :=
  fetchPhaseM settings >>= fun fetchError => statusPhaseM fetchError

/-- The payload of an oracle result (success and failure both carry a
transcript). -/
def exPayload : Except Transcript Transcript → Transcript
  | .ok t => t
  | .error t => t

/-- The degraded but valid repository record written by
`refreshRepoDirect` when the status command fails: inaccessible summary
with attention set, branch "unknown", zero counts, no changed files; the
failure transcript preserved as lastErrorTranscript, transcript history
as given. -/
def degradedRepo (r : RepoRecord) (history : List Transcript) (t : Transcript) : RepoRecord :=
  { r with
    transcripts := history
    status := some
      { needsAttention := true
        isDirty := false
        hasStaged := false
        hasUntracked := false
        stagedCount := 0
        modifiedCount := 0
        untrackedCount := 0
        conflictedCount := 0
        changedFiles := []
        branch := "unknown"
        isDetached := false
        hasUpstream := false
        ahead := 0
        behind := 0
        mergeInProgress := false
        rebaseInProgress := false
        inaccessible := true
        refreshedAt := nowIso }
    lastError := some "Repository inaccessible or git command failed."
    lastErrorTranscript := some t
    updatedAt := nowIso }

/-- The caller-facing part of a RepoActionResult (`{ok, message,
transcript?}`); the snapshot field of the source is the sorted catalog
view, modelled separately by `getSnapshotRepos`. -/
structure ActionResult where
  ok : Bool
  message : String
  transcript : Option Transcript
deriving DecidableEq, Repr

/-- Rendering of `error.transcript.exitCode ?? "unknown"` inside a
template literal. -/
def exitCodeText : Option Int → String
  | some n => toString n
  | none => "unknown"

/-- handleActionFailure from `repo-service.ts`: a `CommandFailedError`
becomes a failure result carrying its transcript (recorded as lastError
text, lastErrorTranscript, and appended to the history); any other error
becomes a failure result with the error's message (or the fallback when
blank) and no transcript. -/
def handleActionFailureM (fallbackMessage : String) (e : Err) : M ActionResult :=
  match e with
  | .cmdFailed t =>
      modifyRepoM (fun repo =>
        { repo with
          lastError :=
            some (fallbackMessage ++ " Exit code " ++ exitCodeText t.exitCode ++ ".")
          lastErrorTranscript := some t
          updatedAt := nowIso }) >>= fun _ =>
      pushTranscriptM t >>= fun _ =>
      mPure
        { ok := false
          message := fallbackMessage ++ " Exit code " ++ exitCodeText t.exitCode ++ "."
          transcript := some t }
  | .localError m =>
      let message := if m = "" then fallbackMessage else m
      modifyRepoM (fun repo =>
        { repo with lastError := some message, updatedAt := nowIso }) >>= fun _ =>
      mPure { ok := false, message := message, transcript := none }

/-- The tail of the commit task body after the commit command returned:
push its transcript, refresh, clear the error state, and build the
success result (whose transcript is the commit transcript, the last
value the source's `transcript` variable was assigned). -/
def commitFinishM (settings : DashboardSettings) (commitT : Transcript) : M ActionResult :=
  pushTranscriptM commitT >>= fun _ =>
  refreshRepoDirectM settings >>= fun _ =>
  modifyRepoM (fun repo =>
    { repo with lastError := none, lastErrorTranscript := none, updatedAt := nowIso }) >>= fun _ =>
  mPure { ok := true, message := "Commit completed.", transcript := some commitT }

/-- The queue-task body of commitRepo: status; not dirty — throw a local
error (no commit command spawned); dirty with nothing staged — stage
everything with `add -A` (ignore patterns are not consulted) before
committing; commit with the trimmed message; then finish. -/
def commitBodyM (settings : DashboardSettings) (message : String) : M ActionResult :=
  runGitCommandM statusArgs >>= fun statusT =>
  let parsed := parseStatusOutput statusT.stdout
  if parsed.isDirty = false then
    throwM (.localError "No changes to commit.")
  else
    (if parsed.hasStaged = false then
      runGitCommandM ["add", "-A"] >>= fun t => pushTranscriptM t
    else mPure ()) >>= fun _ =>
    runGitCommandM ["commit", "-m", jsTrim message] >>= fun commitT =>
    commitFinishM settings commitT

/-- commitRepo from `repo-service.ts` (JavaScript `message.trim()` is
`jsTrim`): a blank message is a local failure before anything is
spawned; otherwise the task body runs under the operation-boundary
try/catch. -/
def commitRepoM (settings : DashboardSettings) (message : String) : M ActionResult :=
  if jsTrim message = "" then
    mPure { ok := false, message := "Commit message is required.", transcript := none }
  else
    catchM (commitBodyM settings message) (handleActionFailureM "Commit failed.")

/-- The fixed step sequence of syncRepo. -/
def syncSteps : List (List String) :=
  [["fetch", "--all", "--prune"], ["pull"], ["push", "--porcelain"]]

/-- syncRepo from `repo-service.ts` (queue-task body plus try/catch):
run the fixed steps in order, pushing each transcript; a failing step
throws, skipping the rest; then refresh and clear the error state. -/
def syncRepoM (settings : DashboardSettings) : M ActionResult :=
  catchM
    (syncSteps.foldlM
      (fun (_ : Option Transcript) args =>
        runGitCommandM args >>= fun t =>
        pushTranscriptM t >>= fun _ =>
        mPure (some t)) (none : Option Transcript) >>= fun last =>
     refreshRepoDirectM settings >>= fun _ =>
     modifyRepoM (fun repo =>
       { repo with lastError := none, lastErrorTranscript := none, updatedAt := nowIso }) >>= fun _ =>
     mPure { ok := true, message := "Sync completed.", transcript := last })
    (handleActionFailureM "Sync failed.")

/-! ### Frame property: orchestrator computations only append to the
invocation log. -/
/-- A computation only appends to the invocation log. -/
def Appends {α : Type} (m : M α) : Prop :=
  ∀ c out, m c = some out → ∃ tail, out.2.invocations = c.invocations ++ tail

/-- Settings used for concrete scenarios (fetch-on-refresh disabled). -/
def witSettings : DashboardSettings :=
  ⟨[], [], [], [], "code <path>", "code <path>", 180, false⟩

/-- A repository record used for concrete scenarios. -/
def witRepo : RepoRecord :=
  ⟨"repo-1", "alpha", "C:/work/alpha", .windows, "t", "t", none, none, none, none, []⟩

/-- Successful transcript of a status command over a dirty worktree with
nothing staged. -/
def c7StatusT : Transcript :=
  ⟨"git status --porcelain=v1 --branch -uall", some 0, "## main\n M src/a.ts", "", "t", "t",
   false⟩

/-- A generic successful transcript. -/
def okT (cmd : String) : Transcript := ⟨cmd, some 0, "", "", "t", "t", false⟩

/-- Concrete context for the commit scenario: dirty status, successful
stage-all, commit and refresh-status results, three probe results. -/
def c7Ctx : Ctx :=
  ⟨[.ok c7StatusT, .ok (okT "git add -A"), .ok (okT "git commit"),
    .ok (okT "git status")], [false, false, false], [], witRepo⟩

/-! ## Registration (repo-service.ts, normalizePathKey / registerRepo) -/
/-- normalizePathKey from `repo-service.ts`.  `path.resolve` is platform
behaviour and is supplied as the `resolve` parameter; the Windows key
lower-cases the resolved path, the WSL key is distro-qualified over the
raw path. -/
def normalizePathKey (resolve : String → String) (repoPath : String)
    (environment : RepoEnvironment) : String :=
  match environment with
  | .windows => "windows:" ++ (resolve repoPath).toLower
  | .wsl distro => "wsl:" ++ distro ++ ":" ++ repoPath

/-- registerRepo from `repo-service.ts`: look the catalog up by
normalized key; a hit returns the existing record with the catalog
unchanged, otherwise a new record (fresh id, empty status/error/history)
is appended.  Returns the record and the resulting catalog. -/
def registerRepo (resolve : String → String) (freshId : String)
    (repos : List RepoRecord) (displayName repoPath : String)
    (environment : RepoEnvironment) : RepoRecord × List RepoRecord :=
  match repos.find? (fun repo =>
    normalizePathKey resolve repo.path repo.environment =
      normalizePathKey resolve repoPath environment) with
  | some existing => (existing, repos)
  | none =>
      let repo : RepoRecord :=
        { id := freshId
          displayName := displayName
          path := repoPath
          environment := environment
          createdAt := nowIso
          updatedAt := nowIso
          status := none
          activeOperation := none
          lastError := none
          lastErrorTranscript := none
          transcripts := [] }
      (repo, repos ++ [repo])

/-! ## Snapshot ordering (repo-service.ts, getSnapshot) -/
/-- The attention coordinate of the snapshot comparator:
`repo.status?.needsAttention ? 1 : 0` is 0 for a missing status. -/
def hasAttention (r : RepoRecord) : Bool :=
  match r.status with
  | some st => st.needsAttention
  | none => false

/-- The comparator passed to `sort` in `getSnapshot`: repositories
needing attention first (descending attention coordinate), ties broken
by `displayName.localeCompare`.  `localeCompare` is locale-dependent
host behaviour, supplied as the integer comparator `lc`. -/
def repoCompare (lc : String → String → Int) (a b : RepoRecord) : Int :=
  let aAttention : Int := if hasAttention a then 1 else 0
  let bAttention : Int := if hasAttention b then 1 else 0
  if aAttention ≠ bAttention then bAttention - aAttention
  else lc a.displayName b.displayName

/-- The repos list of `getSnapshot()`: a sorted copy of the catalog
(`[...repos].sort(comparator)`; JavaScript's sort is stable and sorts
ascending by the comparator, modelled by a stable merge sort). -/
def getSnapshotRepos (lc : String → String → Int) (repos : List RepoRecord) :
    List RepoRecord :=
  repos.mergeSort (fun a b => repoCompare lc a b ≤ 0)

/-- A status summary that needs attention (one modified, one untracked
file). -/
def attnStatus : RepoStatusSummary :=
  ⟨true, true, false, true, 0, 1, 1, 0, [], "main", false, false, 0, 0, false, false,
   false, "t"⟩

/-- A clean status summary needing no attention. -/
def calmStatus : RepoStatusSummary :=
  ⟨false, false, false, false, 0, 0, 0, 0, [], "main", false, true, 0, 0, false, false,
   false, "t"⟩

/-- Snapshot-scenario repository without a status yet. -/
def c10r1 : RepoRecord :=
  ⟨"1", "bb", "p1", .windows, "t", "t", none, none, none, none, []⟩

/-- Snapshot-scenario repository needing attention. -/
def c10r2 : RepoRecord :=
  ⟨"2", "cc", "p2", .windows, "t", "t", some attnStatus, none, none, none, []⟩

/-- Snapshot-scenario repository with a clean status. -/
def c10r3 : RepoRecord :=
  ⟨"3", "a", "p3", .windows, "t", "t", some calmStatus, none, none, none, []⟩

/-- The exact status text of the C5 example. -/
def c5Input : String :=
  "## main...origin/main [ahead 2, behind 1]\n M src/a.ts\nA  src/b.ts\n?? src/c.ts"

set_option maxRecDepth 100000

/-- Claim C5: the status parser applied to the exact input
`"## main...origin/main [ahead 2, behind 1]\n M src/a.ts\nA  src/b.ts\n?? src/c.ts"`
yields branch "main", hasUpstream true, ahead 2, behind 1, one modified,
one staged, one untracked file, dirty, and parser-level needsAttention. -/
theorem claim_C5_status_parser_example :
    (parseStatusOutput c5Input).branch = "main" ∧
    (parseStatusOutput c5Input).hasUpstream = true ∧
    (parseStatusOutput c5Input).ahead = 2 ∧
    (parseStatusOutput c5Input).behind = 1 ∧
    (parseStatusOutput c5Input).modifiedCount = 1 ∧
    (parseStatusOutput c5Input).stagedCount = 1 ∧
    (parseStatusOutput c5Input).untrackedCount = 1 ∧
    (parseStatusOutput c5Input).isDirty = true ∧
    (parseStatusOutput c5Input).needsAttention = true := by
  decide

/-- Claim C2: when the process produces a `close` event (it started),
the call resolves with a Transcript exactly when the exit code is 0 and
`timedOut` is false; in every other case it rejects, and the rejection
carries the full Transcript (command line, exit code, stdout, stderr,
start/finish timestamps, timedOut flag). -/
theorem claim_C2_close_settlement (p : RunParams) (evs : List RunEvent)
    (ec : Option Int) (hfin : (runTrace p evs).finished = false) :
    ((runTrace p (evs ++ [.close ec])).outcome =
        some (.ok (closeTranscript p (runTrace p evs) ec)) ↔
      (ec = some 0 ∧ (runTrace p evs).timedOut = false)) ∧
    (¬ (ec = some 0 ∧ (runTrace p evs).timedOut = false) →
      (runTrace p (evs ++ [.close ec])).outcome =
        some (.error (closeTranscript p (runTrace p evs) ec))) ∧
    (closeTranscript p (runTrace p evs) ec).command = formatInvocation p.command p.args ∧
    (closeTranscript p (runTrace p evs) ec).exitCode = ec ∧
    (closeTranscript p (runTrace p evs) ec).stdout = (runTrace p evs).stdoutAcc ∧
    (closeTranscript p (runTrace p evs) ec).stderr = (runTrace p evs).stderrAcc ∧
    (closeTranscript p (runTrace p evs) ec).startedAt = p.startedAt ∧
    (closeTranscript p (runTrace p evs) ec).finishedAt = nowIso ∧
    (closeTranscript p (runTrace p evs) ec).timedOut = (runTrace p evs).timedOut := by
  have hstep : runTrace p (evs ++ [.close ec]) =
      stepRun p (runTrace p evs) (.close ec) := by
    simp [runTrace, List.foldl_append]
  rw [hstep]
  by_cases h : ec = some 0 ∧ (runTrace p evs).timedOut = false
  · simp [stepRun, hfin, h, closeTranscript]
  · simp [stepRun, hfin, h, closeTranscript]

/-- Concrete instantiation of C2: a command that timed out and then
exited with code 0 is still rejected, with the full transcript. -/
theorem claim_C2_witness :
    ¬ ((some 0 : Option Int) = some 0 ∧
        (runTrace ⟨"git", ["status"], "t0"⟩ [.dataOut "out", .timerFire]).timedOut = false) ∧
    (runTrace ⟨"git", ["status"], "t0"⟩
        [.dataOut "out", .timerFire, .close (some 0)]).outcome =
      some (.error (closeTranscript ⟨"git", ["status"], "t0"⟩
        (runTrace ⟨"git", ["status"], "t0"⟩ [.dataOut "out", .timerFire]) (some 0))) := by
  refine ⟨by decide, ?_⟩
  exact (claim_C2_close_settlement ⟨"git", ["status"], "t0"⟩
    [.dataOut "out", .timerFire] (some 0) (by decide)).2.1 (by decide)

/-- Counterexample to claim C3: the external cancellation token fires
(the process receives SIGTERM), the process then exits with code 0, and
the call RESOLVES as a success with `timedOut = false`; no forced kill
was ever scheduled.  This contradicts "identical to a hard timeout":
cancellation neither marks `timedOut = true`, nor schedules the forced
kill, nor forces failure regardless of exit code. -/
theorem claim_C3_counterexample :
    (runTrace ⟨"git", ["pull"], "t0"⟩ [.abortFire, .close (some 0)]).outcome =
      some (.ok { command := "git pull"
                  exitCode := some 0
                  stdout := ""
                  stderr := ""
                  startedAt := "t0"
                  finishedAt := nowIso
                  timedOut := false }) ∧
    (runTrace ⟨"git", ["pull"], "t0"⟩ [.abortFire, .close (some 0)]).sigkillScheduled = false ∧
    (runTrace ⟨"git", ["pull"], "t0"⟩ [.abortFire, .close (some 0)]).sigterms = 1 := by
  decide

/-- Helper: any number of abort firings in an unfinished run only sends
SIGTERMs; it changes nothing else. -/
theorem foldl_abortFire (p : RunParams) :
    ∀ (n : Nat) (s : RunState), s.finished = false →
      List.foldl (stepRun p) s (List.replicate n .abortFire) =
        { s with sigterms := s.sigterms + n }
  | 0, s, _ => rfl
  | n + 1, s, h => by
    rw [List.replicate_succ, List.foldl_cons]
    have h1 : stepRun p s .abortFire = { s with sigterms := s.sigterms + 1 } := by
      simp [stepRun, h]
    rw [h1, foldl_abortFire p n { s with sigterms := s.sigterms + 1 } h]
    simp [Nat.add_assoc, Nat.add_comm 1 n]

/-- Amended claim C3: when the external cancellation token fires during
execute, the process is sent only the graceful termination signal — no
forced kill is scheduled, `timedOut` stays false, and the run is not
settled by the abort itself; the invocation then succeeds or fails
purely by the normal close rule (success exactly on exit code 0).  A
hard timeout, by contrast, sets `timedOut = true`, schedules the forced
kill after the grace window, and makes the invocation fail regardless of
the eventual exit code. -/
theorem claim_C3_abort_differs_from_timeout (p : RunParams) (n : Nat) (ec : Option Int) :
    (runTrace p (List.replicate n .abortFire)).timedOut = false ∧
    (runTrace p (List.replicate n .abortFire)).sigkillScheduled = false ∧
    (runTrace p (List.replicate n .abortFire)).sigterms = n ∧
    (runTrace p (List.replicate n .abortFire)).outcome = none ∧
    ((runTrace p (List.replicate n .abortFire ++ [.close ec])).outcome =
      some (if ec = some 0 then
              .ok (closeTranscript p (runTrace p (List.replicate n .abortFire)) ec)
            else
              .error (closeTranscript p (runTrace p (List.replicate n .abortFire)) ec))) ∧
    (runTrace p [.timerFire]).timedOut = true ∧
    (runTrace p [.timerFire]).sigkillScheduled = true ∧
    ((runTrace p [.timerFire, .close ec]).outcome =
      some (.error (closeTranscript p (runTrace p [.timerFire]) ec))) := by
  have habort : runTrace p (List.replicate n .abortFire) =
      ⟨"", "", false, false, n, false, none⟩ := by
    have h := foldl_abortFire p n initRunState rfl
    simpa [runTrace, initRunState] using h
  have hclose : runTrace p (List.replicate n .abortFire ++ [.close ec]) =
      stepRun p (runTrace p (List.replicate n .abortFire)) (.close ec) := by
    simp [runTrace, List.foldl_append]
  have htimer : runTrace p [.timerFire] = ⟨"", "", true, false, 1, true, none⟩ := by
    simp [runTrace, stepRun, initRunState]
  refine ⟨by rw [habort], by rw [habort], by rw [habort], by rw [habort], ?_,
    by rw [htimer], by rw [htimer], ?_⟩
  · rw [hclose, habort]
    by_cases h : ec = some 0
    · simp [stepRun, h]
    · simp [stepRun, h]
  · have h2 : runTrace p [.timerFire, .close ec] =
        stepRun p (runTrace p [.timerFire]) (.close ec) := by
      simp [runTrace]
    rw [h2, htimer]
    simp [stepRun]

theorem excl_pump (tk : List QTask) (st fi : List Nat) (se : List (Nat × Outcome))
    (h : st = fi) : Excl (pump ⟨tk, none, st, fi, se⟩) := by
  cases tk with
  | nil => exact ⟨h, rfl⟩
  | cons t tk =>
      show st ++ [t.id] = fi ++ [t.id]
      rw [h]

theorem excl_settleActive (s : QueueState) (o : Outcome) (h : Excl s) :
    Excl (settleActive s o) := by
  obtain ⟨tk, ac, st, fi, se⟩ := s
  cases ac with
  | none => exact h
  | some a =>
      obtain ⟨t, b⟩ := a
      exact excl_pump tk st (fi ++ [t.id]) (se ++ [(t.id, o)]) h

theorem excl_step (s : QueueState) (e : QEvent) (h : Excl s) : Excl (stepQ s e) := by
  obtain ⟨tk, ac, st, fi, se⟩ := s
  cases e with
  | enq t =>
      cases ac with
      | some a => exact h
      | none =>
          obtain ⟨h1, h2⟩ := h
          exact excl_pump (tk ++ [t]) st fi se h1
  | timerFire =>
      cases ac with
      | none => exact h
      | some a => obtain ⟨t, b⟩ := a; exact h
  | abortSettle =>
      cases ac with
      | none => exact h
      | some a =>
          obtain ⟨t, b⟩ := a
          cases b with
          | false => exact h
          | true =>
              show Excl (match t.onAbort with
                | some o => settleActive ⟨tk, some (t, true), st, fi, se⟩ o
                | none => ⟨tk, some (t, true), st, fi, se⟩)
              cases hab : t.onAbort with
              | none => exact h
              | some o => exact excl_settleActive ⟨tk, some (t, true), st, fi, se⟩ o h
  | complete =>
      cases ac with
      | none => exact h
      | some a =>
          obtain ⟨t, b⟩ := a
          exact excl_settleActive ⟨tk, some (t, b), st, fi, se⟩ t.natural h
  | cancel rid =>
      cases ac with
      | none =>
          obtain ⟨h1, h2⟩ := h
          have h2x : tk = [] := h2
          subst h2x
          exact ⟨h1, rfl⟩
      | some a =>
          obtain ⟨t, b⟩ := a
          by_cases hr : t.repoId = rid
          · simpa [stepQ, hr] using h
          · simpa [stepQ, hr] using h

theorem stp_pump (s : QueueState) :
    startedThenPending (pump s) = startedThenPending s := by
  obtain ⟨tk, ac, st, fi, se⟩ := s
  cases ac with
  | some a => rfl
  | none =>
      cases tk with
      | nil => rfl
      | cons t tk => simp [startedThenPending, pump]

theorem stp_settleActive (s : QueueState) (o : Outcome) :
    startedThenPending (settleActive s o) = startedThenPending s := by
  obtain ⟨tk, ac, st, fi, se⟩ := s
  cases ac with
  | none => rfl
  | some a =>
      obtain ⟨t, b⟩ := a
      exact stp_pump ⟨tk, none, st, fi ++ [t.id], se ++ [(t.id, o)]⟩

theorem stp_step (s : QueueState) (e : QEvent) :
    (startedThenPending (stepQ s e)).Sublist (startedThenPending s ++ enqContrib e) := by
  obtain ⟨tk, ac, st, fi, se⟩ := s
  cases e with
  | enq t =>
      have h := stp_pump ⟨tk ++ [t], ac, st, fi, se⟩
      show (startedThenPending (pump ⟨tk ++ [t], ac, st, fi, se⟩)).Sublist _
      rw [h]
      simp [startedThenPending, enqContrib]
  | timerFire =>
      cases ac with
      | some a =>
          obtain ⟨t, b⟩ := a
          simp [stepQ, startedThenPending, enqContrib]
      | none => simp [stepQ, enqContrib]
  | abortSettle =>
      cases ac with
      | none => simp [stepQ, enqContrib]
      | some a =>
          obtain ⟨t, b⟩ := a
          cases b with
          | false => simp [stepQ, enqContrib]
          | true =>
              show (startedThenPending (match t.onAbort with
                | some o => settleActive ⟨tk, some (t, true), st, fi, se⟩ o
                | none => ⟨tk, some (t, true), st, fi, se⟩)).Sublist _
              cases hab : t.onAbort with
              | none => simp [enqContrib]
              | some o =>
                  rw [stp_settleActive ⟨tk, some (t, true), st, fi, se⟩ o]
                  simp [enqContrib]
  | complete =>
      cases ac with
      | none => simp [stepQ, enqContrib]
      | some a =>
          obtain ⟨t, b⟩ := a
          have h := stp_settleActive ⟨tk, some (t, b), st, fi, se⟩ t.natural
          show (startedThenPending (settleActive ⟨tk, some (t, b), st, fi, se⟩ t.natural)).Sublist _
          rw [h]
          simp [enqContrib]
  | cancel rid =>
      have hsub : ((tk.filter (fun u => u.repoId ≠ rid)).map QTask.id).Sublist
          (tk.map QTask.id) := (List.filter_sublist tk).map QTask.id
      cases ac with
      | none =>
          simp only [stepQ, startedThenPending, enqContrib, List.append_nil]
          exact hsub.append_left st
      | some a =>
          obtain ⟨t, b⟩ := a
          by_cases hr : t.repoId = rid
          · simp only [stepQ, hr, if_pos rfl, startedThenPending, enqContrib, List.append_nil]
            exact hsub.append_left st
          · simp only [stepQ, hr, if_neg hr, startedThenPending, enqContrib, List.append_nil]
            exact hsub.append_left st

theorem stp_foldl (evs : List QEvent) :
    ∀ s : QueueState,
      (startedThenPending (List.foldl stepQ s evs)).Sublist
        (startedThenPending s ++ enqIds evs) := by
  induction evs with
  | nil => intro s; simp
  | cons e evs ih =>
      intro s
      have h1 := ih (stepQ s e)
      have h2 := (stp_step s e).append_right (enqIds evs)
      have h3 : startedThenPending s ++ enqContrib e ++ enqIds evs =
          startedThenPending s ++ enqIds (e :: evs) := by
        cases e <;> simp [enqContrib, enqIds]
      rw [List.foldl_cons]
      exact h1.trans (h3 ▸ h2)

/-- Amended claim C1: the operation queue serializes tasks GLOBALLY, not
per repository.  After any scheduler trace: at most one task is in
flight (when a task is active it is exactly the one started-but-
unfinished task; when the queue is idle every started task has finished
and nothing is pending), and tasks start in global submission order (the
started log followed by the pending ids is a subsequence of the enqueue
order).  Per-repository serialization and per-repository submission
order follow as special cases; tasks for two distinct repository ids can
never overlap. -/
theorem claim_C1_amended_global_serialization (evs : List QEvent) :
    Excl (runQ evs) ∧
    (startedThenPending (runQ evs)).Sublist (enqIds evs) := by
  constructor
  · have h : ∀ (l : List QEvent) (s : QueueState), Excl s → Excl (List.foldl stepQ s l) := by
      intro l
      induction l with
      | nil => intro s hs; exact hs
      | cons e l ih =>
          intro s hs
          rw [List.foldl_cons]
          exact ih _ (excl_step s e hs)
    exact h evs initQ ⟨rfl, rfl⟩
  · simpa [startedThenPending, initQ] using stp_foldl evs initQ

/-- Counterexample to claim C1: tasks for two different repository ids
can NEVER overlap.  Exhaustively over every scheduler trace of length at
most five built from enqueues of a repository-"A" task and a
repository-"B" task, timer firings, abort settlements, natural
completions and a cancel of "A", no intermediate queue state ever has
two tasks in flight; and in the canonical scenario — the "A" task
running, the "B" task enqueued — the "B" task has not started.  This
refutes "a task for B may start and run while a task for A is still
running". -/
theorem claim_C1_counterexample :
    noOverlapUpTo
      [.enq ⟨1, "A", some .rejectedBody, .resolved⟩,
       .enq ⟨2, "B", some .rejectedBody, .resolved⟩,
       .timerFire, .abortSettle, .complete, .cancel "A"] 5 initQ = true ∧
    (runQ [.enq ⟨1, "A", some .rejectedBody, .resolved⟩,
           .enq ⟨2, "B", some .rejectedBody, .resolved⟩]).started = [1] ∧
    (runQ [.enq ⟨1, "A", some .rejectedBody, .resolved⟩,
           .enq ⟨2, "B", some .rejectedBody, .resolved⟩]).active =
      some (⟨1, "A", some .rejectedBody, .resolved⟩, false) := by
  decide

/-- Counterexample to claim C4: one task for repository "A" whose body
never observes the cancellation token, a second task for the same
repository queued behind it.  The queue-level timer fires (aborting the
controller) and the abort is delivered: the first task does NOT settle —
in particular not with a cancellation error — and the queued task does
not start.  The timer is no backstop: it only signals the token. -/
theorem claim_C4_counterexample :
    (runQ [.enq ⟨1, "A", none, .resolved⟩, .enq ⟨2, "A", some .rejectedBody, .resolved⟩,
           .timerFire, .abortSettle]).settled = [] ∧
    (runQ [.enq ⟨1, "A", none, .resolved⟩, .enq ⟨2, "A", some .rejectedBody, .resolved⟩,
           .timerFire, .abortSettle]).started = [1] ∧
    (runQ [.enq ⟨1, "A", none, .resolved⟩, .enq ⟨2, "A", some .rejectedBody, .resolved⟩,
           .timerFire, .abortSettle]).active =
      some (⟨1, "A", none, .resolved⟩, true) := by
  decide

theorem c4_aux (t1 t2 : QTask) (h : t1.onAbort = none) :
    ∀ (bs : List Bool) (b : Bool),
      ∃ b2, List.foldl stepQ ⟨[t2], some (t1, b), [t1.id], [], []⟩
          (bs.map (fun c => if c then QEvent.timerFire else QEvent.abortSettle)) =
        ⟨[t2], some (t1, b2), [t1.id], [], []⟩
  | [], b => ⟨b, rfl⟩
  | c :: bs, b => by
      rw [List.map_cons, List.foldl_cons]
      cases c with
      | true =>
          have hif : (if (true : Bool) = true then QEvent.timerFire else QEvent.abortSettle) =
              QEvent.timerFire := rfl
          have hstep : stepQ ⟨[t2], some (t1, b), [t1.id], [], []⟩ QEvent.timerFire =
              ⟨[t2], some (t1, true), [t1.id], [], []⟩ := rfl
          rw [hif, hstep]
          exact c4_aux t1 t2 h bs true
      | false =>
          have hif : (if (false : Bool) = true then QEvent.timerFire else QEvent.abortSettle) =
              QEvent.abortSettle := rfl
          have hstep : stepQ ⟨[t2], some (t1, b), [t1.id], [], []⟩ QEvent.abortSettle =
              ⟨[t2], some (t1, b), [t1.id], [], []⟩ := by
            cases b with
            | false => rfl
            | true => simp [stepQ, h]
          rw [hif, hstep]
          exact c4_aux t1 t2 h bs b

/-- Amended claim C4: the enqueue promise settles as the task's result,
the task's own error, or the cancellation error (the latter exactly for
tasks cancelled while still queued).  The per-task timer, however, is
NOT an independent backstop: when the queue-level timeout elapses it
only signals the task's cancellation token.  A task whose body never
observes the token stays unsettled through any sequence of timer firings
and abort deliveries, and the next queued task for that repository does
not start; only when the body itself settles (which a token-observing
body does once aborted) is the enqueue promise settled and the next task
started. -/
theorem claim_C4_amended_cooperative_timeout
    (i1 i2 : Nat) (r1 r2 : String) (nat1 nat2 : Outcome) (ab2 : Option Outcome)
    (o : Outcome) (bs : List Bool) :
    (List.foldl stepQ
        (runQ [.enq ⟨i1, r1, none, nat1⟩, .enq ⟨i2, r2, ab2, nat2⟩])
        (bs.map (fun c => if c then QEvent.timerFire else QEvent.abortSettle))).settled = [] ∧
    (List.foldl stepQ
        (runQ [.enq ⟨i1, r1, none, nat1⟩, .enq ⟨i2, r2, ab2, nat2⟩])
        (bs.map (fun c => if c then QEvent.timerFire else QEvent.abortSettle))).started = [i1] ∧
    (List.foldl stepQ
        (runQ [.enq ⟨i1, r1, none, nat1⟩, .enq ⟨i2, r2, ab2, nat2⟩])
        (bs.map (fun c => if c then QEvent.timerFire else QEvent.abortSettle))).tasks =
      [⟨i2, r2, ab2, nat2⟩] ∧
    (runQ [.enq ⟨i1, r1, some o, nat1⟩, .enq ⟨i2, r2, ab2, nat2⟩,
           .timerFire, .abortSettle]).settled = [(i1, o)] ∧
    (runQ [.enq ⟨i1, r1, some o, nat1⟩, .enq ⟨i2, r2, ab2, nat2⟩,
           .timerFire, .abortSettle]).started = [i1, i2] ∧
    (runQ [.enq ⟨i1, r1, none, nat1⟩, .enq ⟨i2, r2, ab2, nat2⟩, .cancel r2]).settled =
      [(i2, Outcome.rejectedCancel)] ∧
    (runQ [.enq ⟨i1, r1, none, nat1⟩, .enq ⟨i2, r2, ab2, nat2⟩, .cancel r2]).tasks = [] := by
  have hinit : runQ [.enq ⟨i1, r1, none, nat1⟩, .enq ⟨i2, r2, ab2, nat2⟩] =
      ⟨[⟨i2, r2, ab2, nat2⟩], some (⟨i1, r1, none, nat1⟩, false), [i1], [], []⟩ := rfl
  obtain ⟨b2, hb⟩ := c4_aux ⟨i1, r1, none, nat1⟩ ⟨i2, r2, ab2, nat2⟩ rfl bs false
  refine ⟨?_, ?_, ?_, rfl, rfl, ?_, ?_⟩
  · rw [hinit, hb]
  · rw [hinit, hb]
  · rw [hinit, hb]
  · show (stepQ (runQ [.enq ⟨i1, r1, none, nat1⟩, .enq ⟨i2, r2, ab2, nat2⟩])
      (.cancel r2)).settled = [(i2, Outcome.rejectedCancel)]
    rw [hinit]
    by_cases hr : r1 = r2 <;> simp [stepQ, hr]
  · show (stepQ (runQ [.enq ⟨i1, r1, none, nat1⟩, .enq ⟨i2, r2, ab2, nat2⟩])
      (.cancel r2)).tasks = []
    rw [hinit]
    by_cases hr : r1 = r2 <;> simp [stepQ, hr]

/-- Claim C6: when the status command of a refresh fails as a process
failure, the repository receives the degraded but valid summary
(inaccessible, needsAttention, branch "unknown", zero counts, no changed
files), the failure transcript is preserved as lastErrorTranscript and
appended to the transcript history, and the refresh returns normally
(the error does not propagate).  Shown both with the diagnostic fetch
disabled and enabled (with fetch enabled, the fetch result — success or
failure — is consumed and pushed first, and the status failure still
yields the same degraded outcome). -/
theorem claim_C6_status_failure_degraded (s : DashboardSettings) (r : RepoRecord)
    (fr : Except Transcript Transcript) (t : Transcript)
    (rest : List (Except Transcript Transcript)) (ps : List Bool)
    (inv : List (List String)) :
    refreshRepoDirectM { s with fetchOnRefresh := false }
        ⟨.error t :: rest, ps, inv, { r with transcripts := [] }⟩ =
      some (.ok (), ⟨rest, ps, inv ++ [statusArgs], degradedRepo r [t] t⟩) ∧
    refreshRepoDirectM { s with fetchOnRefresh := true }
        ⟨fr :: .error t :: rest, ps, inv, { r with transcripts := [] }⟩ =
      some (.ok (), ⟨rest, ps,
        inv ++ [["fetch", "--all", "--prune", "--quiet"], statusArgs],
        degradedRepo r [exPayload fr, t] t⟩) := by
  constructor
  · simp [refreshRepoDirectM, fetchPhaseM, statusPhaseM, catchM, runGitCommandM,
      probeM, pushTranscriptM, modifyRepoM, pushTranscriptFn, throwM, bind, mBind,
      pure, mPure, degradedRepo, HISTORY_LIMIT]
  · cases fr with
    | ok t0 =>
        simp [refreshRepoDirectM, fetchPhaseM, statusPhaseM, catchM, runGitCommandM,
          probeM, pushTranscriptM, modifyRepoM, pushTranscriptFn, throwM, bind, mBind,
          pure, mPure, degradedRepo, exPayload, HISTORY_LIMIT]
    | error t0 =>
        simp [refreshRepoDirectM, fetchPhaseM, statusPhaseM, catchM, runGitCommandM,
          probeM, pushTranscriptM, modifyRepoM, pushTranscriptFn, throwM, bind, mBind,
          pure, mPure, degradedRepo, exPayload, HISTORY_LIMIT]

theorem appends_mPure {α : Type} (a : α) : Appends (mPure a) := by
  intro c out h
  refine ⟨[], ?_⟩
  have hout : out = (.ok a, c) := by
    have := h.symm
    simpa [mPure] using this
  rw [hout]
  simp

theorem appends_throwM {α : Type} (e : Err) : Appends (throwM e : M α) := by
  intro c out h
  refine ⟨[], ?_⟩
  have hout : out = (.error e, c) := by
    have := h.symm
    simpa [throwM] using this
  rw [hout]
  simp

theorem appends_modifyRepoM (f : RepoRecord → RepoRecord) : Appends (modifyRepoM f) := by
  intro c out h
  refine ⟨[], ?_⟩
  have hout : out = (.ok (), { c with repo := f c.repo }) := by
    have := h.symm
    simpa [modifyRepoM] using this
  rw [hout]
  simp

theorem appends_pushTranscriptM (t : Transcript) : Appends (pushTranscriptM t) :=
  appends_modifyRepoM _

theorem appends_probeM : Appends probeM := by
  intro c out h
  cases hp : c.probes with
  | nil => rw [probeM, hp] at h; cases h
  | cons b rest =>
      refine ⟨[], ?_⟩
      rw [probeM, hp] at h
      have hout : out = (.ok b, { c with probes := rest }) := by simpa using h.symm
      rw [hout]
      simp

theorem appends_runGitCommandM (args : List String) : Appends (runGitCommandM args) := by
  intro c out h
  cases hw : c.world with
  | nil => rw [runGitCommandM, hw] at h; cases h
  | cons r rest =>
      refine ⟨[args], ?_⟩
      rw [runGitCommandM, hw] at h
      cases r with
      | ok t =>
          have hout : out =
              (.ok t, { c with world := rest, invocations := c.invocations ++ [args] }) := by
            simpa using h.symm
          rw [hout]
      | error t =>
          have hout : out =
              (.error (.cmdFailed t),
               { c with world := rest, invocations := c.invocations ++ [args] }) := by
            simpa using h.symm
          rw [hout]

theorem appends_mBind {α β : Type} (m : M α) (k : α → M β)
    (hm : Appends m) (hk : ∀ a, Appends (k a)) : Appends (mBind m k) := by
  intro c out h
  unfold mBind at h
  cases hmc : m c with
  | none => rw [hmc] at h; cases h
  | some p =>
      obtain ⟨r, c2⟩ := p
      rw [hmc] at h
      obtain ⟨t1, ht1⟩ := hm c (r, c2) hmc
      cases r with
      | error e =>
          have hout : out = (.error e, c2) := by simpa using h.symm
          rw [hout]
          exact ⟨t1, ht1⟩
      | ok a =>
          obtain ⟨t2, ht2⟩ := hk a c2 out h
          exact ⟨t1 ++ t2, by rw [ht2, ht1, List.append_assoc]⟩

theorem appends_bind {α β : Type} (m : M α) (k : α → M β)
    (hm : Appends m) (hk : ∀ a, Appends (k a)) : Appends (m >>= k) :=
  appends_mBind m k hm hk

theorem appends_catchM {α : Type} (m : M α) (h : Err → M α)
    (hm : Appends m) (hh : ∀ e, Appends (h e)) : Appends (catchM m h) := by
  intro c out hc
  unfold catchM at hc
  cases hmc : m c with
  | none => rw [hmc] at hc; cases hc
  | some p =>
      obtain ⟨r, c2⟩ := p
      rw [hmc] at hc
      obtain ⟨t1, ht1⟩ := hm c (r, c2) hmc
      cases r with
      | ok a =>
          have hout : out = (.ok a, c2) := by simpa using hc.symm
          rw [hout]
          exact ⟨t1, ht1⟩
      | error e =>
          obtain ⟨t2, ht2⟩ := hh e c2 out hc
          exact ⟨t1 ++ t2, by rw [ht2, ht1, List.append_assoc]⟩

theorem appends_fetchPhaseM (s : DashboardSettings) : Appends (fetchPhaseM s) := by
  unfold fetchPhaseM
  cases hf : s.fetchOnRefresh
  · exact appends_mPure _
  · apply appends_catchM
    · apply appends_bind _ _ (appends_runGitCommandM _)
      intro t
      exact appends_bind _ _ (appends_pushTranscriptM t) (fun _ => appends_mPure _)
    · intro e
      cases e with
      | cmdFailed t =>
          exact appends_bind _ _ (appends_pushTranscriptM t) (fun _ => appends_mPure _)
      | localError m => exact appends_mPure _

theorem appends_rebaseProbeM (rebase1 : Bool) : Appends (rebaseProbeM rebase1) := by
  unfold rebaseProbeM
  cases rebase1
  · exact appends_probeM
  · exact appends_mPure _

theorem appends_statusPhaseM (fetchError : Option Transcript) :
    Appends (statusPhaseM fetchError) := by
  unfold statusPhaseM
  apply appends_catchM
  · apply appends_bind _ _ (appends_runGitCommandM _)
    intro statusT
    apply appends_bind _ _ (appends_pushTranscriptM _)
    intro _
    apply appends_bind _ _ appends_probeM
    intro mergeInProgress
    apply appends_bind _ _ appends_probeM
    intro rebase1
    apply appends_bind _ _ (appends_rebaseProbeM rebase1)
    intro rebaseInProgress
    exact appends_modifyRepoM _
  · intro e
    cases e with
    | cmdFailed t =>
        exact appends_bind _ _ (appends_pushTranscriptM t)
          (fun _ => appends_modifyRepoM _)
    | localError m => exact appends_throwM _

theorem appends_refreshRepoDirectM (s : DashboardSettings) :
    Appends (refreshRepoDirectM s) := by
  unfold refreshRepoDirectM
  exact appends_bind _ _ (appends_fetchPhaseM s) (fun fe => appends_statusPhaseM fe)

theorem appends_handleActionFailureM (fallbackMessage : String) :
    ∀ e, Appends (handleActionFailureM fallbackMessage e) := by
  intro e
  cases e with
  | cmdFailed t =>
      apply appends_bind _ _ (appends_modifyRepoM _)
      intro _
      exact appends_bind _ _ (appends_pushTranscriptM t) (fun _ => appends_mPure _)
  | localError m =>
      exact appends_bind _ _ (appends_modifyRepoM _) (fun _ => appends_mPure _)

theorem appends_commitFinishM (s : DashboardSettings) (t : Transcript) :
    Appends (commitFinishM s t) := by
  unfold commitFinishM
  apply appends_bind _ _ (appends_pushTranscriptM t)
  intro _
  apply appends_bind _ _ (appends_refreshRepoDirectM s)
  intro _
  exact appends_bind _ _ (appends_modifyRepoM _) (fun _ => appends_mPure _)

/-- Claim C7: the decision sequence of commitRepository.  (1) A blank
(all-whitespace) message fails locally: the result is a failure with no
transcript and the state — world, probes, invocation log, repository —
is untouched (no process spawned).  (2) Otherwise a status command runs
first; when its parse is not dirty the operation fails locally with "No
changes to commit.", having invoked exactly the status command (no
commit command spawned).  (3) When dirty with zero staged files, the
invocations are exactly status, stage-all (`add -A`, ignore patterns not
re-applied), commit with the trimmed message, followed only by the
post-commit refresh's own invocations.  (4) When something is staged,
the commit command follows the status command directly, followed only by
the refresh's invocations. -/
theorem claim_C7_commit_decision_sequence (settings : DashboardSettings) :
    (∀ (message : String) (c : Ctx), jsTrim message = "" →
      commitRepoM settings message c =
        some (.ok { ok := false, message := "Commit message is required.",
                    transcript := none }, c)) ∧
    (∀ (message : String) (t1 : Transcript) (rest : List (Except Transcript Transcript))
        (ps : List Bool) (inv : List (List String)) (r : RepoRecord),
      jsTrim message ≠ "" → (parseStatusOutput t1.stdout).isDirty = false →
      commitRepoM settings message ⟨.ok t1 :: rest, ps, inv, r⟩ =
        some (.ok { ok := false, message := "No changes to commit.", transcript := none },
          ⟨rest, ps, inv ++ [statusArgs],
           { r with lastError := some "No changes to commit.", updatedAt := nowIso }⟩)) ∧
    (∀ (message : String) (t1 t2 t3 : Transcript)
        (w4 : List (Except Transcript Transcript)) (ps : List Bool)
        (inv : List (List String)) (r : RepoRecord) (out : Except Err ActionResult × Ctx),
      jsTrim message ≠ "" → (parseStatusOutput t1.stdout).isDirty = true →
      (parseStatusOutput t1.stdout).hasStaged = false →
      commitRepoM settings message ⟨.ok t1 :: .ok t2 :: .ok t3 :: w4, ps, inv, r⟩ =
        some out →
      ∃ tail, out.2.invocations =
        inv ++ [statusArgs, ["add", "-A"], ["commit", "-m", jsTrim message]] ++ tail) ∧
    (∀ (message : String) (t1 t3 : Transcript)
        (w4 : List (Except Transcript Transcript)) (ps : List Bool)
        (inv : List (List String)) (r : RepoRecord) (out : Except Err ActionResult × Ctx),
      jsTrim message ≠ "" → (parseStatusOutput t1.stdout).isDirty = true →
      (parseStatusOutput t1.stdout).hasStaged = true →
      commitRepoM settings message ⟨.ok t1 :: .ok t3 :: w4, ps, inv, r⟩ = some out →
      ∃ tail, out.2.invocations =
        inv ++ [statusArgs, ["commit", "-m", jsTrim message]] ++ tail) := by
  refine ⟨?_, ?_, ?_, ?_⟩
  · intro message c h
    simp [commitRepoM, h, mPure]
  · intro message t1 rest ps inv r hne hd
    simp [commitRepoM, hne, commitBodyM, catchM, runGitCommandM, throwM,
      handleActionFailureM, modifyRepoM, bind, mBind, mPure, hd]
  · intro message t1 t2 t3 w4 ps inv r out hne hd hs hout
    have hbody : commitBodyM settings message ⟨.ok t1 :: .ok t2 :: .ok t3 :: w4, ps, inv, r⟩ =
        commitFinishM settings t3
          ⟨w4, ps, inv ++ [statusArgs, ["add", "-A"], ["commit", "-m", jsTrim message]],
           pushTranscriptFn r t2⟩ := by
      simp [commitBodyM, runGitCommandM, pushTranscriptM, modifyRepoM, bind, mBind,
        mPure, hd, hs]
    simp only [commitRepoM, if_neg hne] at hout
    unfold catchM at hout
    rw [hbody] at hout
    cases hfin : commitFinishM settings t3
        ⟨w4, ps, inv ++ [statusArgs, ["add", "-A"], ["commit", "-m", jsTrim message]],
         pushTranscriptFn r t2⟩ with
    | none =>
        rw [hfin] at hout
        exact Option.noConfusion hout
    | some p =>
        obtain ⟨res, c2⟩ := p
        rw [hfin] at hout
        obtain ⟨tail1, ht1⟩ := appends_commitFinishM settings t3 _ (res, c2) hfin
        cases res with
        | ok a =>
            have hout2 : some ((Except.ok a : Except Err ActionResult), c2) = some out := hout
            have hout3 : out = (Except.ok a, c2) := (Option.some.inj hout2).symm
            subst hout3
            refine ⟨tail1, ?_⟩
            rw [show ((Except.ok a : Except Err ActionResult), c2).2 = c2 from rfl, ht1]
        | error e =>
            have hout2 : handleActionFailureM "Commit failed." e c2 = some out := hout
            obtain ⟨tail2, ht2⟩ :=
              appends_handleActionFailureM "Commit failed." e c2 out hout2
            refine ⟨tail1 ++ tail2, ?_⟩
            rw [ht2, ht1]
            simp
  · intro message t1 t3 w4 ps inv r out hne hd hs hout
    have hbody : commitBodyM settings message ⟨.ok t1 :: .ok t3 :: w4, ps, inv, r⟩ =
        commitFinishM settings t3
          ⟨w4, ps, inv ++ [statusArgs, ["commit", "-m", jsTrim message]], r⟩ := by
      simp [commitBodyM, runGitCommandM, pushTranscriptM, modifyRepoM, bind, mBind,
        mPure, hd, hs]
    simp only [commitRepoM, if_neg hne] at hout
    unfold catchM at hout
    rw [hbody] at hout
    cases hfin : commitFinishM settings t3
        ⟨w4, ps, inv ++ [statusArgs, ["commit", "-m", jsTrim message]], r⟩ with
    | none =>
        rw [hfin] at hout
        exact Option.noConfusion hout
    | some p =>
        obtain ⟨res, c2⟩ := p
        rw [hfin] at hout
        obtain ⟨tail1, ht1⟩ := appends_commitFinishM settings t3 _ (res, c2) hfin
        cases res with
        | ok a =>
            have hout2 : some ((Except.ok a : Except Err ActionResult), c2) = some out := hout
            have hout3 : out = (Except.ok a, c2) := (Option.some.inj hout2).symm
            subst hout3
            refine ⟨tail1, ?_⟩
            rw [show ((Except.ok a : Except Err ActionResult), c2).2 = c2 from rfl, ht1]
        | error e =>
            have hout2 : handleActionFailureM "Commit failed." e c2 = some out := hout
            obtain ⟨tail2, ht2⟩ :=
              appends_handleActionFailureM "Commit failed." e c2 out hout2
            refine ⟨tail1 ++ tail2, ?_⟩
            rw [ht2, ht1]
            simp

/-- Concrete instantiation of C7 (the dirty, nothing-staged branch): the
first three invocations are exactly status, stage-all, commit with the
trimmed message. -/
theorem claim_C7_witness :
    (commitRepoM witSettings "fix" c7Ctx).map (fun out => out.2.invocations.take 3) =
      some [statusArgs, ["add", "-A"], ["commit", "-m", jsTrim "fix"]] := by
  cases hout : commitRepoM witSettings "fix" c7Ctx with
  | none =>
      have hsome : (commitRepoM witSettings "fix" c7Ctx).isSome = true := by decide
      rw [hout] at hsome
      exact Bool.noConfusion hsome
  | some out =>
      obtain ⟨tail, ht⟩ := (claim_C7_commit_decision_sequence witSettings).2.2.1 "fix"
        c7StatusT (okT "git add -A") (okT "git commit") [.ok (okT "git status")]
        [false, false, false] [] witRepo out (by decide) (by decide) (by decide) hout
      show some (out.2.invocations.take 3) = some [statusArgs, ["add", "-A"],
        ["commit", "-m", jsTrim "fix"]]
      rw [ht]
      rfl

/-- Claim C8: sync runs fetch-all-prune then pull then push inside one
task; when fetch succeeds and pull fails, push is never invoked (exactly
the fetch and pull argument lists are recorded and the rest of the world
is left unconsumed), the result is a process failure referencing the
pull transcript, and the transcript history for the sync contains
exactly the fetch and pull transcripts (the fetch transcript pushed by
the step loop, the pull transcript preserved by the failure handler,
which also records it as lastErrorTranscript). -/
theorem claim_C8_sync_stops_on_pull_failure (s : DashboardSettings) (r : RepoRecord)
    (ft pt : Transcript) (rest : List (Except Transcript Transcript))
    (ps : List Bool) (inv : List (List String)) :
    syncRepoM s ⟨.ok ft :: .error pt :: rest, ps, inv, { r with transcripts := [] }⟩ =
      some (.ok { ok := false
                  message := "Sync failed." ++ " Exit code " ++ exitCodeText pt.exitCode ++ "."
                  transcript := some pt },
        ⟨rest, ps, inv ++ [["fetch", "--all", "--prune"], ["pull"]],
         { r with
           transcripts := [ft, pt]
           lastError :=
             some ("Sync failed." ++ " Exit code " ++ exitCodeText pt.exitCode ++ ".")
           lastErrorTranscript := some pt
           updatedAt := nowIso }⟩) := by
  simp [syncRepoM, syncSteps, catchM, runGitCommandM, pushTranscriptM, modifyRepoM,
    pushTranscriptFn, handleActionFailureM, bind, mBind, pure, mPure, HISTORY_LIMIT,
    List.foldlM]

/-- Claim C9: registration is idempotent under the (environment,
normalized path) key.  For every catalog holding some record whose
normalized key matches the input, `registerRepo` (the registration path
shared by addRepository and the discovery scan) leaves the catalog
unchanged and returns an existing record with that key. -/
theorem claim_C9_registration_idempotent (resolve : String → String) (freshId : String)
    (repos : List RepoRecord) (displayName repoPath : String)
    (environment : RepoEnvironment)
    (h : ∃ r ∈ repos, normalizePathKey resolve r.path r.environment =
      normalizePathKey resolve repoPath environment) :
    (registerRepo resolve freshId repos displayName repoPath environment).2 = repos ∧
    (registerRepo resolve freshId repos displayName repoPath environment).1 ∈ repos ∧
    normalizePathKey resolve
        (registerRepo resolve freshId repos displayName repoPath environment).1.path
        (registerRepo resolve freshId repos displayName repoPath environment).1.environment =
      normalizePathKey resolve repoPath environment := by
  obtain ⟨r0, hr0, hk⟩ := h
  cases hfind : repos.find? (fun repo =>
      normalizePathKey resolve repo.path repo.environment =
        normalizePathKey resolve repoPath environment) with
  | none =>
      exfalso
      have hnone := List.find?_eq_none.mp hfind r0 hr0
      exact hnone (decide_eq_true hk)
  | some existing =>
      have hmem := List.mem_of_find?_eq_some hfind
      have hkey0 := List.find?_some hfind
      have hkey : normalizePathKey resolve existing.path existing.environment =
          normalizePathKey resolve repoPath environment := by simpa using hkey0
      refine ⟨?_, ?_, ?_⟩ <;> simp only [registerRepo, hfind]
      · exact hmem
      · exact hkey

/-- Concrete instantiation of C9: registering the already-catalogued
path again returns the existing record and leaves the catalog as it
was. -/
theorem claim_C9_witness :
    (registerRepo (fun p => p) "fresh" [witRepo] "alpha" "C:/work/alpha" .windows).2 =
      [witRepo] ∧
    (registerRepo (fun p => p) "fresh" [witRepo] "alpha" "C:/work/alpha" .windows).1 ∈
      [witRepo] ∧
    normalizePathKey (fun p => p)
        (registerRepo (fun p => p) "fresh" [witRepo] "alpha" "C:/work/alpha" .windows).1.path
        (registerRepo (fun p => p) "fresh" [witRepo] "alpha" "C:/work/alpha"
          .windows).1.environment =
      normalizePathKey (fun p => p) "C:/work/alpha" .windows :=
  claim_C9_registration_idempotent (fun p => p) "fresh" [witRepo] "alpha" "C:/work/alpha"
    .windows ⟨witRepo, by simp, rfl⟩

theorem repoCompare_le_trans (lc : String → String → Int)
    (htrans : ∀ a b c, lc a b ≤ 0 → lc b c ≤ 0 → lc a c ≤ 0)
    (a b c : RepoRecord) (hab : repoCompare lc a b ≤ 0) (hbc : repoCompare lc b c ≤ 0) :
    repoCompare lc a c ≤ 0 := by
  by_cases ha : hasAttention a <;> by_cases hb : hasAttention b <;>
    by_cases hc : hasAttention c <;>
    simp only [repoCompare, ha, hb, hc, if_true, if_false, ite_true, ite_false] at * <;>
    first
      | omega
      | exact htrans _ _ _ (by simpa using hab) (by simpa using hbc)
      | (exfalso; omega)
      | simp_all

/-- Claim C10: every snapshot lists the repositories with all
needs-attention repositories before all others (a repository with no
status counts as no-attention), within the same attention group ordered
by the display-name comparison, and as a permutation of the catalog.
Stated for any total, transitive display-name comparator `lc`. -/
theorem claim_C10_snapshot_ordering (lc : String → String → Int)
    (repos : List RepoRecord)
    (htotal : ∀ a b, lc a b ≤ 0 ∨ lc b a ≤ 0)
    (htrans : ∀ a b c, lc a b ≤ 0 → lc b c ≤ 0 → lc a c ≤ 0) :
    (getSnapshotRepos lc repos).Perm repos ∧
    (getSnapshotRepos lc repos).Pairwise (fun a b =>
      (hasAttention b = true → hasAttention a = true) ∧
      (hasAttention a = hasAttention b → lc a.displayName b.displayName ≤ 0)) := by
  constructor
  · exact List.mergeSort_perm repos _
  · have htransB : ∀ a b c : RepoRecord,
        decide (repoCompare lc a b ≤ 0) = true →
        decide (repoCompare lc b c ≤ 0) = true →
        decide (repoCompare lc a c ≤ 0) = true := by
      intro a b c h1 h2
      exact decide_eq_true
        (repoCompare_le_trans lc htrans a b c (of_decide_eq_true h1) (of_decide_eq_true h2))
    have htotalB : ∀ a b : RepoRecord,
        (decide (repoCompare lc a b ≤ 0) || decide (repoCompare lc b a ≤ 0)) = true := by
      intro a b
      by_cases ha : hasAttention a <;> by_cases hb : hasAttention b
      · rcases htotal a.displayName b.displayName with h | h <;>
          simp [repoCompare, ha, hb, h]
      · simp [repoCompare, ha, hb]
      · simp [repoCompare, ha, hb]
      · rcases htotal a.displayName b.displayName with h | h <;>
          simp [repoCompare, ha, hb, h]
    have hsorted := List.sorted_mergeSort htransB htotalB repos
    refine hsorted.imp ?_
    intro a b hle
    have hab : repoCompare lc a b ≤ 0 := of_decide_eq_true hle
    constructor
    · intro hbA
      by_contra haA
      have haA2 : hasAttention a = false := by
        cases hv : hasAttention a
        · rfl
        · exact absurd hv haA
      rw [repoCompare, haA2, hbA] at hab
      simp at hab
    · intro heq
      rw [repoCompare, heq] at hab
      simpa using hab

/-- Concrete instantiation of C10 with a length-based display-name
comparator and a three-repository catalog (statusless, attention,
clean). -/
theorem claim_C10_witness :
    (getSnapshotRepos (fun a b => (a.length : Int) - b.length)
        [c10r1, c10r2, c10r3]).Perm [c10r1, c10r2, c10r3] ∧
    (getSnapshotRepos (fun a b => (a.length : Int) - b.length)
        [c10r1, c10r2, c10r3]).Pairwise (fun a b =>
      (hasAttention b = true → hasAttention a = true) ∧
      (hasAttention a = hasAttention b →
        ((a.displayName.length : Int) - b.displayName.length ≤ 0))) :=
  claim_C10_snapshot_ordering (fun a b => (a.length : Int) - b.length)
    [c10r1, c10r2, c10r3]
    (fun a b => by
      show (a.length : Int) - b.length ≤ 0 ∨ (b.length : Int) - a.length ≤ 0
      omega)
    (fun a b c h1 h2 => by
      have h1x : (a.length : Int) - b.length ≤ 0 := h1
      have h2x : (b.length : Int) - c.length ≤ 0 := h2
      show (a.length : Int) - c.length ≤ 0
      omega)

end Kachina
